import Mathlib

/-!
Verification of the source-resolution and transcription-orchestration pipeline
of a Telegram transcription bot (`src/bot.py`).

The Python code is shallowly embedded: pure string manipulation becomes Lean
functions over `String` / `List Char`; subprocess and HTTP effects are modelled
by passing the observed responses (status code, content type, body, cookies,
byte counts, process exit codes) as explicit arguments; floating-point
durations are modelled as exact rationals.
-/

namespace Bot

/-! ## Python string primitives -/

/-- Python `str.strip()` on the leading side: drop leading whitespace
(the ASCII whitespace characters recognised by `Char.isWhitespace`). -/
def frontStrip (l : List Char) : List Char := l.dropWhile Char.isWhitespace

/-- Python `str.strip()` on the trailing side: drop trailing whitespace. -/
def backStrip (l : List Char) : List Char :=
  (l.reverse.dropWhile Char.isWhitespace).reverse

/-- Python `str.strip()` on a character list: drop whitespace at both ends. -/
def stripList (l : List Char) : List Char := backStrip (frontStrip l)

/-- Python `str.strip()` on a string. -/
def pyStrip (s : String) : String := ⟨stripList s.data⟩

/-- Python substring membership on character lists: `needle in hay`. -/
def seqContains (hay needle : List Char) : Bool :=
  match hay with
  | [] => needle.isEmpty
  | c :: t => needle.isPrefixOf (c :: t) || seqContains t needle

/-- Python `needle in hay` on strings. -/
def strContains (hay needle : String) : Bool := seqContains hay.data needle.data

/-- Python `s.startswith(pre)`. -/
def strStarts (pre s : String) : Bool := pre.data.isPrefixOf s.data

/-- Python `s.endswith(suf)` on character lists. -/
def endsWithList (l suf : List Char) : Bool := suf.reverse.isPrefixOf l.reverse

/-- Python `url.rstrip("/")`: drop trailing slash characters. -/
def rstripSlashes (l : List Char) : List Char :=
  (l.reverse.dropWhile (fun c => c = '/')).reverse

/-- ASCII/Cyrillic lower-casing of one character; models Python `str.lower()`
on the character sets that occur in the source (ASCII plus Cyrillic). -/
def lowerRu (c : Char) : Char :=
  if 'A' ≤ c ∧ c ≤ 'Z' then Char.ofNat (c.toNat + 32)
  else if 'А' ≤ c ∧ c ≤ 'Я' then Char.ofNat (c.toNat + 32)
  else if c = 'Ё' then 'ё'
  else c

/-- Python `s.lower()` (ASCII and Cyrillic range). -/
def pyLower (s : String) : String := ⟨s.data.map lowerRu⟩

/-- Python `sep.join(xs)`. -/
def pyJoin (sep : String) : List String → String
  | [] => ""
  | [x] => x
  | x :: xs => x ++ sep ++ pyJoin sep xs

/-! ## Link Normalizer (`normalize_link`, src/bot.py lines 83-93)

`normalize_link` strips the URL and, for Nextcloud/ownCloud share links
(`"/s/" in url` and `"download" not in url`), appends `"/download"` after
removing trailing slashes. -/

def normalize_link (url : String) : String :=
  let u := pyStrip url
  if strContains u "/s/" && !(strContains u "download") then
    if !(endsWithList u.data "/download".data) then
      ⟨rstripSlashes u.data ++ "/download".data⟩
    else u
  else u

/-! ## Lemmas about the string primitives -/

theorem dropWhile_head_false {p : Char → Bool} :
    ∀ {l : List Char} {c : Char} {t : List Char},
      l.dropWhile p = c :: t → p c = false := by
  intro l
  induction l with
  | nil => intro c t h; simp [List.dropWhile] at h
  | cons a tl ih =>
    intro c t h
    by_cases ha : p a
    · rw [List.dropWhile_cons, if_pos ha] at h
      exact ih h
    · rw [List.dropWhile_cons, if_neg ha] at h
      cases h
      simpa using ha

theorem dropWhile_eq_self_of_head {p : Char → Bool} {l : List Char}
    (h : ∀ c t, l = c :: t → p c = false) : l.dropWhile p = l := by
  cases l with
  | nil => rfl
  | cons c t => rw [List.dropWhile_cons, if_neg]; simp [h c t rfl]

/-- `dropWhile` removes an initial segment. -/
theorem dropWhile_isSuffix (p : Char → Bool) (l : List Char) :
    ∃ a, a ++ l.dropWhile p = l := by
  induction l with
  | nil => exact ⟨[], rfl⟩
  | cons c t ih =>
    by_cases hc : p c
    · obtain ⟨a, ha⟩ := ih
      exact ⟨c :: a, by rw [List.dropWhile_cons, if_pos hc, List.cons_append, ha]⟩
    · exact ⟨[], by rw [List.dropWhile_cons, if_neg hc]; rfl⟩

/-- Stripping from the back only: a non-empty result keeps the original head. -/
theorem revDropWhile_head (p : Char → Bool) {l : List Char} {c : Char} {t : List Char}
    (h : (l.reverse.dropWhile p).reverse = c :: t) : ∃ r, l = c :: (t ++ r) := by
  obtain ⟨a, ha⟩ := dropWhile_isSuffix p l.reverse
  refine ⟨a.reverse, ?_⟩
  have h2 : l.reverse.dropWhile p = t.reverse ++ [c] := by
    have h3 := congrArg List.reverse h
    rw [List.reverse_reverse] at h3
    rw [h3]; simp
  rw [h2] at ha
  have h4 := congrArg List.reverse ha
  simp only [List.reverse_append, List.reverse_reverse, List.reverse_cons,
    List.reverse_nil, List.nil_append, List.append_assoc] at h4
  rw [← h4]; simp

/-- The head of a stripped non-empty list is not whitespace. -/
theorem stripList_head_not_ws {l : List Char} {c : Char} {t : List Char}
    (h : stripList l = c :: t) : Char.isWhitespace c = false := by
  unfold stripList backStrip frontStrip at h
  obtain ⟨r, hr⟩ := revDropWhile_head Char.isWhitespace h
  exact dropWhile_head_false hr

/-- The last element of a stripped non-empty list is not whitespace. -/
theorem stripList_rev_head_not_ws {l : List Char} {c : Char} {t : List Char}
    (h : (stripList l).reverse = c :: t) : Char.isWhitespace c = false := by
  unfold stripList backStrip at h
  rw [List.reverse_reverse] at h
  exact dropWhile_head_false h

/-- A list whose ends are not whitespace is fixed by `stripList`. -/
theorem stripList_eq_self {l : List Char}
    (hhead : ∀ c t, l = c :: t → Char.isWhitespace c = false)
    (hlast : ∀ c t, l.reverse = c :: t → Char.isWhitespace c = false) :
    stripList l = l := by
  unfold stripList backStrip frontStrip
  rw [dropWhile_eq_self_of_head hhead]
  rw [dropWhile_eq_self_of_head hlast, List.reverse_reverse]

theorem stripList_idem (l : List Char) : stripList (stripList l) = stripList l :=
  stripList_eq_self (fun _ _ h => stripList_head_not_ws h)
    (fun _ _ h => stripList_rev_head_not_ws h)

theorem pyStrip_pyStrip (s : String) : pyStrip (pyStrip s) = pyStrip s := by
  show (⟨stripList (stripList s.data)⟩ : String) = ⟨stripList s.data⟩
  rw [stripList_idem]

theorem seqContains_append_of_right {a b needle : List Char}
    (h : seqContains b needle = true) : seqContains (a ++ b) needle = true := by
  induction a with
  | nil => simpa using h
  | cons c t ih =>
    simp only [List.cons_append, seqContains]
    rw [Bool.or_eq_true]
    exact Or.inr ih

/-- A list ending in `"/download"` contains `"download"`. -/
theorem seqContains_download_of_append (a : List Char) :
    seqContains (a ++ "/download".data) "download".data = true := by
  apply seqContains_append_of_right
  decide

theorem isPrefixOf_exists_append {l₁ l₂ : List Char}
    (h : l₁.isPrefixOf l₂ = true) : ∃ r, l₂ = l₁ ++ r := by
  induction l₁ generalizing l₂ with
  | nil => exact ⟨l₂, rfl⟩
  | cons c t ih =>
    cases l₂ with
    | nil => simp [List.isPrefixOf] at h
    | cons b bs =>
      simp only [List.isPrefixOf, Bool.and_eq_true, beq_iff_eq] at h
      obtain ⟨r, hr⟩ := ih h.2
      exact ⟨r, by rw [h.1, hr, List.cons_append]⟩

/-- An `endsWithList l "/download"` list contains `"download"`. -/
theorem seqContains_of_endsWith_download {l : List Char}
    (h : endsWithList l "/download".data = true) :
    seqContains l "download".data = true := by
  unfold endsWithList at h
  obtain ⟨r, hr⟩ := isPrefixOf_exists_append h
  have h2 := congrArg List.reverse hr
  simp only [List.reverse_reverse, List.reverse_append] at h2
  rw [h2]
  exact seqContains_download_of_append _

/-! ## C9 / C10: properties of the Link Normalizer -/

/-- Claim C9: The link normalizer is idempotent: for every URL u,
normalize(normalize(u)) = normalize(u); in particular normalizing an
already-canonical bulk-storage or conferencing-recording URL yields the same
URL unchanged. -/
theorem normalize_idem_C9 (u : String) :
    normalize_link (normalize_link u) = normalize_link u := by
  by_cases h1 : (strContains (pyStrip u) "/s/" && !(strContains (pyStrip u) "download")) = true
  · by_cases h2 : endsWithList (pyStrip u).data "/download".data = true
    · -- inner guard fails: the URL already ends in "/download"
      have e1 : normalize_link u = pyStrip u := by
        simp only [normalize_link]
        rw [if_pos h1, if_neg (by rw [h2]; simp)]
      rw [e1]
      simp only [normalize_link]
      rw [pyStrip_pyStrip, if_pos h1, if_neg (by rw [h2]; simp)]
    · -- "/download" is appended
      have e1 : normalize_link u =
          ⟨rstripSlashes (pyStrip u).data ++ "/download".data⟩ := by
        simp only [normalize_link]
        rw [if_pos h1, if_pos (by rw [Bool.eq_false_iff.mpr h2]; simp)]
      rw [e1]
      -- the appended form is stripped and contains "download", so it is fixed
      have hcont : strContains
          (⟨rstripSlashes (pyStrip u).data ++ "/download".data⟩ : String) "download" = true := by
        show seqContains (rstripSlashes (pyStrip u).data ++ "/download".data) "download".data = true
        exact seqContains_download_of_append _
      have hstrip : pyStrip (⟨rstripSlashes (pyStrip u).data ++ "/download".data⟩ : String) =
          ⟨rstripSlashes (pyStrip u).data ++ "/download".data⟩ := by
        show (⟨stripList (rstripSlashes (pyStrip u).data ++ "/download".data)⟩ : String) = _
        rw [stripList_eq_self]
        · intro c t hct
          cases hw : rstripSlashes (pyStrip u).data with
          | nil =>
            rw [hw, List.nil_append] at hct
            have : c = '/' := by
              have h5 : "/download".data = c :: t := hct
              cases h5; rfl
            rw [this]; decide
          | cons c0 t0 =>
            rw [hw, List.cons_append] at hct
            have hc0 : c = c0 := by cases hct; rfl
            -- the head of rstripSlashes of a stripped list is the stripped head
            obtain ⟨r, hrr⟩ := revDropWhile_head (fun c => c = '/') (l := (pyStrip u).data) (by
              show (((pyStrip u).data.reverse.dropWhile (fun c => c = '/')).reverse) = c0 :: t0
              exact hw)
            have : stripList u.data = c0 :: (t0 ++ r) := hrr
            rw [hc0]
            exact stripList_head_not_ws this
        · intro c t hct
          rw [List.reverse_append] at hct
          have : c = 'd' := by
            have h6 : "/download".data.reverse ++ (rstripSlashes (pyStrip u).data).reverse
                = c :: t := hct
            have h7 : "/download".data.reverse =
                ['d', 'a', 'o', 'l', 'n', 'w', 'o', 'd', '/'] := by decide
            rw [h7] at h6
            cases h6; rfl
          rw [this]; decide
      simp only [normalize_link]
      rw [hstrip]
      rw [if_neg (by rw [hcont]; simp)]
  · -- outer guard fails: the URL is only stripped
    have e1 : normalize_link u = pyStrip u := by
      simp only [normalize_link]
      rw [if_neg h1]
    rw [e1]
    simp only [normalize_link]
    rw [pyStrip_pyStrip, if_neg h1]

/-- Claim C10: For every share-style URL containing the path segment "/s/",
the link normalizer appends the "/download" suffix only when the substring
"download" occurs nowhere in the URL; consequently a share URL whose token,
path, or query merely contains the substring "download" is returned unchanged
and is never rewritten into download form. -/
theorem share_download_C10 (u : String) (hs : pyStrip u = u)
    (h1 : strContains u "/s/" = true) :
    (strContains u "download" = true → normalize_link u = u) ∧
    (strContains u "download" = false →
      normalize_link u = ⟨rstripSlashes u.data ++ "/download".data⟩ ∧
      strContains (normalize_link u) "download" = true) := by
  constructor
  · intro hd
    simp only [normalize_link]
    rw [hs, if_neg (by rw [h1, hd]; simp)]
  · intro hd
    have hcond : (strContains u "/s/" && !(strContains u "download")) = true := by
      rw [h1, hd]; rfl
    have hends : endsWithList u.data "/download".data = false := by
      cases hE : endsWithList u.data "/download".data
      · rfl
      · exact absurd (seqContains_of_endsWith_download hE) (by
          show ¬ seqContains u.data "download".data = true
          rw [show seqContains u.data "download".data = strContains u "download" from rfl, hd]
          simp)
    have e1 : normalize_link u = ⟨rstripSlashes u.data ++ "/download".data⟩ := by
      simp only [normalize_link]
      rw [hs, if_pos hcond, if_pos (by rw [hends]; simp)]
    refine ⟨e1, ?_⟩
    rw [e1]
    show seqContains (rstripSlashes u.data ++ "/download".data) "download".data = true
    exact seqContains_download_of_append _

/-- Witness for C10 at a concrete share URL whose token contains "download". -/
theorem share_download_C10_witness :
    pyStrip "https://h/s/downloadX" = "https://h/s/downloadX" ∧
    strContains "https://h/s/downloadX" "/s/" = true ∧
    normalize_link "https://h/s/downloadX" = "https://h/s/downloadX" :=
  ⟨by decide, by decide,
    (share_download_C10 "https://h/s/downloadX" (by decide) (by decide)).1 (by decide)⟩

/-! ## Duration Prober & Chunker (`transcribe_wav_chunked`, src/bot.py lines 308-336)

The while-loop
`while start < duration: t = min(CHUNK_SECONDS, duration - start); ...; start += t`
is embedded with an explicit fuel argument; `chunkFuel` supplies enough fuel
for the loop to run to completion (the loop performs `⌈d/C⌉` iterations).
Durations are modelled as exact rationals. -/

def chunkLoop (C d : ℚ) : ℕ → ℚ → List (ℚ × ℚ)
  | 0, _ => []
  | fuel + 1, start =>
    if start < d then
      (start, min C (d - start)) :: chunkLoop C d fuel (start + min C (d - start))
    else []

/-- Enough iterations for `chunkLoop` starting from 0. -/
def chunkFuel (C d : ℚ) : ℕ := (⌈d / C⌉).toNat + 1

/-- The `(start, length)` pairs cut by the chunking loop of
`transcribe_wav_chunked` (each pair is materialised with
`ffmpeg -ss start -t length`). -/
def chunkPlan (C d : ℚ) : List (ℚ × ℚ) := chunkLoop C d (chunkFuel C d) 0

/-- The segments are consecutive: each one starts where the previous ended. -/
inductive Chained : ℚ → List (ℚ × ℚ) → Prop
  | nil (s : ℚ) : Chained s []
  | cons (s t : ℚ) (rest : List (ℚ × ℚ)) :
      Chained (s + t) rest → Chained s ((s, t) :: rest)

theorem chunkLoop_chained (C d : ℚ) :
    ∀ (fuel : ℕ) (start : ℚ), Chained start (chunkLoop C d fuel start) := by
  intro fuel
  induction fuel with
  | zero => intro start; exact Chained.nil start
  | succ n ih =>
    intro start
    rw [chunkLoop]
    by_cases h : start < d
    · rw [if_pos h]
      exact Chained.cons _ _ _ (ih _)
    · rw [if_neg h]
      exact Chained.nil start

theorem chunkLoop_mem (C d : ℚ) (hC : 0 < C) :
    ∀ (fuel : ℕ) (start : ℚ) (p : ℚ × ℚ), p ∈ chunkLoop C d fuel start →
      p.2 = min C (d - p.1) ∧ 0 < p.2 ∧ p.2 ≤ C := by
  intro fuel
  induction fuel with
  | zero => intro start p hp; simp [chunkLoop] at hp
  | succ n ih =>
    intro start p hp
    rw [chunkLoop] at hp
    by_cases h : start < d
    · rw [if_pos h, List.mem_cons] at hp
      rcases hp with hp | hp
      · subst hp
        refine ⟨rfl, ?_, min_le_left _ _⟩
        exact lt_min hC (by linarith)
      · exact ih _ p hp
    · rw [if_neg h] at hp
      simp at hp

theorem chunkLoop_sum (C d : ℚ) (hC : 0 < C) :
    ∀ (fuel : ℕ) (start : ℚ), start ≤ d → d - start ≤ fuel * C →
      ((chunkLoop C d fuel start).map Prod.snd).sum = d - start := by
  intro fuel
  induction fuel with
  | zero =>
    intro start h1 h2
    simp only [chunkLoop, List.map_nil, List.sum_nil]
    push_cast at h2
    linarith
  | succ n ih =>
    intro start h1 h2
    rw [chunkLoop]
    by_cases h : start < d
    · rw [if_pos h, List.map_cons, List.sum_cons]
      have hmin : min C (d - start) ≤ d - start := min_le_right _ _
      have hstep : ((chunkLoop C d n (start + min C (d - start))).map Prod.snd).sum
          = d - (start + min C (d - start)) := by
        apply ih
        · linarith
        · rcases le_total C (d - start) with hle | hle
          · rw [min_eq_left hle]
            push_cast at h2 ⊢
            linarith
          · rw [min_eq_right hle]
            have : (0 : ℚ) ≤ n * C := by positivity
            linarith
      rw [hstep]
      ring
    · rw [if_neg h]
      simp only [List.map_nil, List.sum_nil]
      have : start = d := le_antisymm h1 (not_lt.mp h)
      rw [this]; ring

theorem chunkFuel_sufficient (C d : ℚ) (hC : 0 < C) (hd : 0 < d) :
    d ≤ (chunkFuel C d : ℚ) * C := by
  unfold chunkFuel
  have h1 : d / C ≤ (⌈d / C⌉ : ℚ) := Int.le_ceil _
  have h2 : (0 : ℤ) ≤ ⌈d / C⌉ := Int.ceil_nonneg (div_pos hd hC).le
  have h3 : ((⌈d / C⌉.toNat : ℤ) : ℚ) = ((⌈d / C⌉ : ℤ) : ℚ) := by
    exact_mod_cast congrArg (fun z : ℤ => (z : ℚ)) (Int.toNat_of_nonneg h2)
  have h4 : d ≤ (⌈d / C⌉ : ℚ) * C := by
    rw [div_le_iff₀ hC] at h1
    exact h1
  push_cast
  push_cast at h3
  rw [h3]
  nlinarith

/-- Claim C1: For every probed duration d with d > chunkSeconds and
chunkSeconds > 0, the chunker produces consecutive segments starting at 0,
each of length min(chunkSeconds, d - start), so that segment intervals exactly
tile [0, d) with no gaps or overlaps, no segment exceeds chunkSeconds, and the
sum of segment lengths equals d; in particular a 2400-second waveform with
chunkSeconds = 900 yields exactly the three segments of lengths 900, 900, 600
in that order. -/
theorem chunker_tiling_C1 (C d : ℚ) (hC : 0 < C) (hd : C < d) :
    (chunkPlan C d ≠ [] ∧
     (chunkPlan C d).head? = some (0, C) ∧
     Chained 0 (chunkPlan C d) ∧
     (∀ p ∈ chunkPlan C d, p.2 = min C (d - p.1) ∧ 0 < p.2 ∧ p.2 ≤ C) ∧
     ((chunkPlan C d).map Prod.snd).sum = d) ∧
    chunkPlan 900 2400 = [(0, 900), (900, 900), (1800, 600)] := by
  have hd0 : 0 < d := hC.trans hd
  constructor
  · have hhead : chunkPlan C d = (0, C) :: chunkLoop C d ((⌈d / C⌉).toNat) (0 + min C (d - 0)) := by
      unfold chunkPlan chunkFuel
      rw [chunkLoop, if_pos hd0]
      rw [sub_zero, min_eq_left hd.le]
    refine ⟨?_, ?_, ?_, ?_, ?_⟩
    · rw [hhead]; simp
    · rw [hhead]; rfl
    · exact chunkLoop_chained C d _ 0
    · intro p hp
      exact chunkLoop_mem C d hC _ 0 p hp
    · have := chunkLoop_sum C d hC (chunkFuel C d) 0 hd0.le
        (by rw [sub_zero]; exact chunkFuel_sufficient C d hC hd0)
      rw [sub_zero] at this
      exact this
  · have hfuel : chunkFuel 900 2400 = 4 := by
      unfold chunkFuel
      have hc : ⌈(2400 : ℚ) / 900⌉ = 3 := by
        rw [Int.ceil_eq_iff]
        norm_num
      rw [hc]; rfl
    rw [chunkPlan, hfuel]
    norm_num [chunkLoop, min_def]

/-- Witness for C1 at the spec's concrete scenario (d = 2400, C = 900). -/
theorem chunker_tiling_C1_witness :
    (0 : ℚ) < 900 ∧ (900 : ℚ) < 2400 ∧
    ((chunkPlan 900 2400).map Prod.snd).sum = 2400 :=
  ⟨by norm_num, by norm_num,
    (chunker_tiling_C1 900 2400 (by norm_num) (by norm_num)).1.2.2.2.2⟩

/-! ## Duration probing (`run_ffprobe_duration`, src/bot.py lines 53-66)

The subprocess result is passed in as (exit code, captured stdout).  Python's
`float(val)` on the decimal strings ffprobe emits is modelled by `pyFloat`;
a parse failure (the `except` branch returning `None`) is `none`. -/

def digitsToNat (l : List Char) : ℕ :=
  l.foldl (fun acc c => 10 * acc + (c.toNat - '0'.toNat)) 0

/-- Parse `digits[.digits]` as an exact rational. -/
def parseUnsigned (l : List Char) : Option ℚ :=
  let ip := l.takeWhile Char.isDigit
  let r := l.drop ip.length
  match r with
  | [] => if ip.isEmpty then none else some (digitsToNat ip)
  | '.' :: fr =>
    let fp := fr.takeWhile Char.isDigit
    if !(fr.drop fp.length).isEmpty then none
    else if ip.isEmpty && fp.isEmpty then none
    else some ((digitsToNat ip : ℚ) + (digitsToNat fp : ℚ) / (10 : ℚ) ^ fp.length)
  | _ => none

/-- Python `float(s)` on ffprobe-style decimal output (sign, digits, one
optional decimal point); anything else fails like `ValueError`. -/
def pyFloat (s : String) : Option ℚ :=
  match s.data with
  | '-' :: r => (parseUnsigned r).map (fun q => -q)
  | '+' :: r => parseUnsigned r
  | l => parseUnsigned l

/-- `run_ffprobe_duration` (src/bot.py lines 53-66): `None` on nonzero exit,
on empty stripped stdout, and on a parse failure; the parsed duration
otherwise. -/
def run_ffprobe_duration (returncode : Int) (stdoutText : String) : Option ℚ :=
  if returncode ≠ 0 then none
  else
    let val := pyStrip stdoutText
    if val = "" then none else pyFloat val

/-! ## Transcription orchestration (`transcribe_wav_chunked`, src/bot.py
lines 275-336)

The faster-whisper backend is external: its per-segment texts are passed in
as oracles (`wholeParts` for the single-unit paths, `chunkParts i` for chunk
number `i`).  `(seg.text or "").strip()` filtering is `cleanParts`;
`"\n".join(...)` and `"\n\n".join(...)` are `pyJoin`. -/

def cleanParts (parts : List String) : List String :=
  (parts.map pyStrip).filter (fun s => !(s == ""))

/-- One chunk's assembled text: `"\n".join(chunk_parts).strip()`. -/
def joinChunk (parts : List String) : String := pyStrip (pyJoin "\n" (cleanParts parts))

/-- The chunked while-loop of `transcribe_wav_chunked` (src/bot.py lines
308-335): cut `min C (d - start)` seconds, transcribe, collect the chunk's
text when non-empty, advance `start` and the chunk index. -/
def transcribeLoop (C d : ℚ) (chunkParts : ℕ → List String) :
    ℕ → ℚ → ℕ → List String
  | 0, _, _ => []
  | fuel + 1, start, idx =>
    if start < d then
      (if (cleanParts (chunkParts idx)).isEmpty then []
       else [pyStrip (pyJoin "\n" (cleanParts (chunkParts idx)))]) ++
      transcribeLoop C d chunkParts fuel (start + min C (d - start)) (idx + 1)
    else []

/-- `transcribe_wav_chunked` (src/bot.py lines 275-336).  `probed` is the
result of `run_ffprobe_duration`; `duration = probed or 0.0` is `getD 0`. -/
def transcribe_wav_chunked (C : ℚ) (probed : Option ℚ)
    (wholeParts : List String) (chunkParts : ℕ → List String) : String :=
  let duration := probed.getD 0
  if duration ≤ 0 then pyStrip (pyJoin "\n" (cleanParts wholeParts))
  else if duration ≤ C then pyStrip (pyJoin "\n" (cleanParts wholeParts))
  else pyStrip (pyJoin "\n\n"
    (transcribeLoop C duration chunkParts (chunkFuel C duration) 0 0))

/-- The caller's outcome (`handle_message`, src/bot.py lines 413-427):
an exception is reported as a failure, an empty transcript as the
"no text produced" warning, a non-empty one is delivered as a document. -/
inductive HandlerOutcome where
  | delivered : String → HandlerOutcome
  | noSpeech : HandlerOutcome
  | failed : String → HandlerOutcome
deriving DecidableEq

def handle_transcription (result : Except String String) : HandlerOutcome :=
  match result with
  | Except.error e => HandlerOutcome.failed e
  | Except.ok t => if t == "" then HandlerOutcome.noSpeech else HandlerOutcome.delivered t

/-! ## Lemmas about assembly -/

theorem str_data_append (a b : String) : (a ++ b).data = a.data ++ b.data := by
  cases a; cases b; rfl

theorem string_eq_empty_iff (s : String) : s = "" ↔ s.data = [] := by
  constructor
  · intro h; subst h; rfl
  · intro h; cases s; cases h; rfl

theorem stripList_eq_nil_iff (l : List Char) :
    stripList l = [] ↔ ∀ c ∈ l, Char.isWhitespace c = true := by
  unfold stripList backStrip frontStrip
  constructor
  · intro h c hc
    have h1 : (l.dropWhile Char.isWhitespace).reverse.dropWhile Char.isWhitespace = [] := by
      simpa using congrArg List.reverse h
    rw [List.dropWhile_eq_nil_iff] at h1
    by_cases hmem : c ∈ l.dropWhile Char.isWhitespace
    · exact h1 c (by simpa using hmem)
    · have hsplit : l = l.takeWhile Char.isWhitespace ++ l.dropWhile Char.isWhitespace :=
        (List.takeWhile_append_dropWhile Char.isWhitespace l).symm
      rw [hsplit, List.mem_append] at hc
      rcases hc with hc | hc
      · exact List.mem_takeWhile_imp hc
      · exact absurd hc hmem
  · intro h
    have h1 : l.dropWhile Char.isWhitespace = [] :=
      List.dropWhile_eq_nil_iff.mpr (fun x hx => h x hx)
    rw [h1]; rfl

/-- A chunk's joined text is empty exactly when its cleaned part list is. -/
theorem joinChunk_eq_empty (x : List String) :
    (joinChunk x == "") = (cleanParts x).isEmpty := by
  cases h : cleanParts x with
  | nil =>
    have : joinChunk x = "" := by
      unfold joinChunk
      rw [h]
      rfl
    rw [this]; rfl
  | cons p rest =>
    have hp : p ∈ cleanParts x := by rw [h]; exact List.mem_cons_self p rest
    unfold cleanParts at hp
    have hp2 := List.mem_filter.mp hp
    obtain ⟨q, _, hq⟩ := List.mem_map.mp hp2.1
    have hpne : p ≠ "" := by
      intro he
      rw [he] at hp2
      simpa using hp2.2
    -- p is stripped and non-empty, so its head is a non-whitespace character
    obtain ⟨c, t, hct⟩ : ∃ c t, p.data = c :: t := by
      cases hpd : p.data with
      | nil => exact absurd ((string_eq_empty_iff p).mpr hpd) hpne
      | cons c t => exact ⟨c, t, rfl⟩
    have hcw : Char.isWhitespace c = false := by
      have : stripList q.data = c :: t := by
        rw [← hct, ← hq]; rfl
      exact stripList_head_not_ws this
    -- the joined text starts with p, hence contains c
    obtain ⟨tl, htl⟩ : ∃ tl, (pyJoin "\n" (p :: rest)).data = p.data ++ tl := by
      cases rest with
      | nil => exact ⟨[], by simp [pyJoin]⟩
      | cons r rs =>
        refine ⟨"\n".data ++ (pyJoin "\n" (r :: rs)).data, ?_⟩
        show (p ++ "\n" ++ pyJoin "\n" (r :: rs)).data = _
        rw [str_data_append, str_data_append, List.append_assoc]
    have hne : joinChunk x ≠ "" := by
      intro he
      have hnil : stripList (pyJoin "\n" (p :: rest)).data = [] := by
        have := (string_eq_empty_iff (joinChunk x)).mp he
        unfold joinChunk at this
        rw [h] at this
        exact this
      rw [stripList_eq_nil_iff] at hnil
      have hcmem : c ∈ (pyJoin "\n" (p :: rest)).data := by
        rw [htl, hct]
        exact List.mem_append_left _ (List.mem_cons_self c t)
      rw [hnil c hcmem] at hcw
      exact Bool.noConfusion hcw
    rw [List.isEmpty_cons]
    exact beq_eq_false_iff_ne.mpr hne

/-- The chunked loop collects exactly the non-empty per-chunk texts, in chunk
order, one per segment of the chunking loop. -/
theorem transcribeLoop_eq (C d : ℚ) (f : ℕ → List String) :
    ∀ (fuel : ℕ) (start : ℚ) (idx : ℕ),
      transcribeLoop C d f fuel start idx =
      ((List.range (chunkLoop C d fuel start).length).map
        (fun j => joinChunk (f (idx + j)))).filter (fun s => !(s == "")) := by
  intro fuel
  induction fuel with
  | zero => intro start idx; simp [transcribeLoop, chunkLoop]
  | succ n ih =>
    intro start idx
    rw [transcribeLoop, chunkLoop]
    by_cases h : start < d
    · rw [if_pos h, if_pos h, List.length_cons, List.range_succ_eq_map, List.map_cons,
        List.filter_cons, List.map_map]
      simp only [Nat.add_zero, Function.comp_def]
      have hcond : (!(joinChunk (f idx) == "")) = !((cleanParts (f idx)).isEmpty) := by
        rw [joinChunk_eq_empty]
      rw [hcond]
      have htail : (List.map (fun j => joinChunk (f (idx + Nat.succ j)))
            (List.range (chunkLoop C d n (start + min C (d - start))).length)) =
          List.map (fun j => joinChunk (f (idx + 1 + j)))
            (List.range (chunkLoop C d n (start + min C (d - start))).length) := by
        apply List.map_congr_left
        intro a _
        rw [show idx + Nat.succ a = idx + 1 + a by omega]
      rw [htail, ih (start + min C (d - start)) (idx + 1)]
      cases hE : (cleanParts (f idx)).isEmpty with
      | true => simp
      | false => simp [joinChunk]
    · rw [if_neg h, if_neg h]
      simp

/-- Claim C6: The transcript assembler concatenates exactly the non-empty
per-chunk texts, in strictly increasing chunk-ordinal order, with a blank line
between chunk boundaries, and trims leading/trailing whitespace from the final
result; when every chunk's text is empty the caller receives a distinct
"no speech recognized" outcome (empty transcript) that is distinguishable from
every failure kind. -/
theorem assembler_C6 (C d : ℚ) (hC : 0 < C) (hd : C < d)
    (wholeParts : List String) (chunkParts : ℕ → List String) :
    (transcribe_wav_chunked C (some d) wholeParts chunkParts =
      pyStrip (pyJoin "\n\n"
        (((List.range (chunkPlan C d).length).map
          (fun i => joinChunk (chunkParts i))).filter (fun s => !(s == ""))))) ∧
    ((∀ i, cleanParts (chunkParts i) = []) →
      transcribe_wav_chunked C (some d) wholeParts chunkParts = "") ∧
    handle_transcription (Except.ok "") = HandlerOutcome.noSpeech ∧
    (∀ e, HandlerOutcome.noSpeech ≠ HandlerOutcome.failed e) ∧
    (∀ t, HandlerOutcome.noSpeech ≠ HandlerOutcome.delivered t) := by
  have hd0 : 0 < d := hC.trans hd
  have hmain : transcribe_wav_chunked C (some d) wholeParts chunkParts =
      pyStrip (pyJoin "\n\n"
        (((List.range (chunkPlan C d).length).map
          (fun i => joinChunk (chunkParts i))).filter (fun s => !(s == "")))) := by
    unfold transcribe_wav_chunked
    simp only [Option.getD_some]
    rw [if_neg (not_le.mpr hd0), if_neg (not_le.mpr hd)]
    rw [transcribeLoop_eq]
    have : (fun j => joinChunk (chunkParts (0 + j))) =
        (fun i => joinChunk (chunkParts i)) := by
      funext j
      rw [Nat.zero_add]
    rw [this]
    rfl
  refine ⟨hmain, ?_, rfl, ?_, ?_⟩
  case refine_2 => intro e h; exact HandlerOutcome.noConfusion h
  case refine_3 => intro t h; exact HandlerOutcome.noConfusion h
  intro hall
  rw [hmain]
  have hmap : ∀ i ∈ List.range (chunkPlan C d).length,
      joinChunk (chunkParts i) = "" := by
    intro i _
    unfold joinChunk
    rw [hall i]
    rfl
  have hfil : (((List.range (chunkPlan C d).length).map
      (fun i => joinChunk (chunkParts i))).filter (fun s => !(s == ""))) = [] := by
    rw [List.filter_eq_nil_iff]
    intro a ha
    obtain ⟨i, hi, hia⟩ := List.mem_map.mp ha
    rw [← hia, hmap i hi]
    simp
  rw [hfil]
  rfl

/-- Witness for C6 at C = 900, d = 2400 with all chunks empty. -/
theorem assembler_C6_witness :
    (0 : ℚ) < 900 ∧ (900 : ℚ) < 2400 ∧
    transcribe_wav_chunked 900 (some 2400) ["hello"] (fun _ => []) = "" :=
  ⟨by norm_num, by norm_num,
    (assembler_C6 900 2400 (by norm_num) (by norm_num) ["hello"] (fun _ => [])).2.1
      (fun _ => rfl)⟩

/-- Claim C7: When duration probing fails or returns zero/unknown (ffprobe
error, non-numeric output, or nonpositive value), the pipeline transcribes the
whole normalized waveform as a single unit instead of aborting the request; a
zero/unknown duration never causes a failure by itself.  (In the embedding the
degraded path always produces the whole-file transcript value — there is no
failure outcome on it.) -/
theorem probe_degrade_C7 (rc : Int) (out : String) (C : ℚ) (probed : Option ℚ)
    (wholeParts : List String) (chunkParts : ℕ → List String) :
    (rc ≠ 0 → run_ffprobe_duration rc out = none) ∧
    (pyFloat (pyStrip out) = none → run_ffprobe_duration 0 out = none) ∧
    ((probed = none ∨ ∃ dv, probed = some dv ∧ dv ≤ 0) →
      transcribe_wav_chunked C probed wholeParts chunkParts =
        pyStrip (pyJoin "\n" (cleanParts wholeParts))) := by
  refine ⟨?_, ?_, ?_⟩
  · intro h
    unfold run_ffprobe_duration
    rw [if_pos h]
  · intro h
    unfold run_ffprobe_duration
    rw [if_neg (by simp)]
    by_cases hv : pyStrip out = ""
    · rw [if_pos hv]
    · rw [if_neg hv]
      exact h
  · intro h
    rcases h with h | ⟨dv, hdv, hdv0⟩
    · rw [h]
      unfold transcribe_wav_chunked
      rw [Option.getD_none, if_pos le_rfl]
    · rw [hdv]
      unfold transcribe_wav_chunked
      rw [Option.getD_some, if_pos hdv0]

/-- Witness for C7: failing probe (exit code 1) and an unknown duration. -/
theorem probe_degrade_C7_witness :
    run_ffprobe_duration 1 "2400.0" = none ∧
    transcribe_wav_chunked 900 none ["hi"] (fun _ => []) = "hi" := by
  refine ⟨(probe_degrade_C7 1 "2400.0" 900 none ["hi"] (fun _ => [])).1 (by decide), ?_⟩
  rw [(probe_degrade_C7 1 "2400.0" 900 none ["hi"] (fun _ => [])).2.2 (Or.inl rfl)]
  decide

/-! ## Subprocess invocations (`run_ffmpeg` / `run_ffprobe_duration`,
src/bot.py lines 46-66)

Both call `subprocess.run(cmd, stdout=PIPE, stderr=PIPE)` without a `timeout`
keyword; the invocation is modelled as the argument vector plus the (absent)
timeout. -/

structure SubprocessSpec where
  argv : List String
  timeoutSeconds : Option ℕ
deriving DecidableEq

/-- The `subprocess.run` call of `run_ffmpeg` (src/bot.py line 48): no
`timeout` argument is passed. -/
def ffmpeg_invocation (cmd : List String) : SubprocessSpec :=
  { argv := cmd, timeoutSeconds := none }

/-- The `subprocess.run` call of `run_ffprobe_duration` (src/bot.py lines
56-60): no `timeout` argument is passed. -/
def ffprobe_invocation (path : String) : SubprocessSpec :=
  { argv := ["ffprobe", "-v", "error", "-show_entries", "format=duration",
             "-of", "default=noprint_wrappers=1:nokey=1", path],
    timeoutSeconds := none }

/-- Python `stderr[-2000:]`. -/
def takeLastChars (n : ℕ) (l : List Char) : List Char := l.drop (l.length - n)

/-- `run_ffmpeg` error handling (src/bot.py lines 46-51): nonzero exit raises
a RuntimeError carrying the last 2000 characters of stderr. -/
def run_ffmpeg (returncode : Int) (stderrText : String) : Except String Unit :=
  if returncode ≠ 0 then
    Except.error ⟨"ffmpeg ошибка:\n".data ++ takeLastChars 2000 stderrText.data⟩
  else Except.ok ()

/-- Counterexample to C3 as stated: the ffprobe and ffmpeg subprocess
invocations carry no timeout at all. -/
theorem subprocess_timeout_C3_counterexample :
    (ffprobe_invocation "audio.wav").timeoutSeconds = none ∧
    (ffmpeg_invocation ["ffmpeg", "-y", "-i", "input.bin", "audio.wav"]).timeoutSeconds
      = none :=
  ⟨rfl, rfl⟩

/-- Claim C3 (amended): the ffmpeg and ffprobe subprocess invocations carry no
explicit timeout; failures are nevertheless surfaced rather than reported as
success — a nonzero ffmpeg exit raises an error carrying the last 2000
characters of stderr, and a nonzero ffprobe exit yields an unknown duration
(None).  No NormalizationTimeout failure kind exists. -/
theorem subprocess_timeout_C3_amended (cmd : List String) (path : String)
    (rc : Int) (err out : String) :
    (ffmpeg_invocation cmd).timeoutSeconds = none ∧
    (ffprobe_invocation path).timeoutSeconds = none ∧
    (rc ≠ 0 → run_ffmpeg rc err =
      Except.error ⟨"ffmpeg ошибка:\n".data ++ takeLastChars 2000 err.data⟩) ∧
    run_ffmpeg 0 err = Except.ok () ∧
    (rc ≠ 0 → run_ffprobe_duration rc out = none) := by
  refine ⟨rfl, rfl, ?_, ?_, ?_⟩
  · intro h
    unfold run_ffmpeg
    rw [if_pos h]
  · unfold run_ffmpeg
    rw [if_neg (by simp)]
  · intro h
    unfold run_ffprobe_duration
    rw [if_pos h]

/-- Witness for C3 (amended) at a failing exit code. -/
theorem subprocess_timeout_C3_witness :
    run_ffmpeg 1 "boom" = Except.error "ffmpeg ошибка:\nboom" ∧
    run_ffprobe_duration 1 "" = none := by
  have h := subprocess_timeout_C3_amended [] "p" 1 "boom" ""
  refine ⟨?_, h.2.2.2.2 (by decide)⟩
  rw [h.2.2.1 (by decide)]
  have he : (⟨"ffmpeg ошибка:\n".data ++ takeLastChars 2000 "boom".data⟩ : String)
      = "ffmpeg ошибка:\nboom" := by decide
  rw [he]

/-! ## Acquisition guards (src/bot.py lines 41-44, 137-146, 165-213, 239-251)

Each fetch strategy's post-conditions are modelled as a function of the
observed response data (declared content type, HTTP status, transferred byte
count) returning a typed failure or success. -/

inductive FetchErr where
  | wrongType | tooSmall | tokenMissing | stillHtml | badStatus
  | authRequired | driveIdMissing
deriving DecidableEq

/-- `MIN_BYTES` (src/bot.py line 38, default "10000"). -/
def MIN_BYTES : ℕ := 10000

/-- The HTML/text content-type test used by the generic fetcher (line 243:
`"html" in ctype or ctype.startswith("text/")`) and by the Drive fetcher
(lines 176 and 208, same test with the operands of `or` swapped). -/
def isHtmlLikeCtype (ct : String) : Bool :=
  strContains (pyLower ct) "html" || strStarts "text/" (pyLower ct)

/-- `ensure_min_size` (src/bot.py lines 41-44): `none` models a missing file
(`not os.path.exists`). -/
def ensure_min_size (size : Option ℕ) (min_bytes : ℕ) : Except FetchErr Unit :=
  match size with
  | none => Except.error FetchErr.tooSmall
  | some n => if n < min_bytes then Except.error FetchErr.tooSmall else Except.ok ()

/-- The generic direct-link fetch checks (src/bot.py lines 239-251): reject an
HTML/text content type before streaming, then reject a transfer below
`MIN_BYTES`. -/
def generic_fetch_guard (ctype : String) (total : ℕ) : Except FetchErr Unit :=
  if isHtmlLikeCtype ctype then Except.error FetchErr.wrongType
  else if total < MIN_BYTES then Except.error FetchErr.tooSmall
  else Except.ok ()

/-- The Zoom download checks (src/bot.py lines 137-146): reject a non-200
status, then reject a transfer below `MIN_BYTES`.  The response's content
type (`_ctype`) is never examined by the source. -/
def zoom_final_guard (_ctype : String) (status : ℕ) (total : ℕ) :
    Except FetchErr Unit :=
  if status ≠ 200 then Except.error FetchErr.badStatus
  else if total < MIN_BYTES then Except.error FetchErr.tooSmall
  else Except.ok ()

/-! ## Google Drive confirmation-gated fetch (`drive_download_with_confirm`,
src/bot.py lines 165-213) -/

/-- The first GET's observed response: headers, body and cookies. -/
structure DriveResp where
  contentDisposition : String
  contentType : String
  body : String
  cookies : List (String × String)

inductive DriveOutcome where
  | direct : DriveOutcome
  | confirmed : String → DriveOutcome
deriving DecidableEq

/-- The character class of the regex capture `([0-9A-Za-z_\-]+)`. -/
def tokenChar (c : Char) : Bool := c.isAlphanum || c = '_' || c = '-'

/-- Scan for `&id=<fileId>` without crossing a closing quote (the regex tail
`[^"]*?&id=...`). -/
def idFollows (target : List Char) : List Char → Bool
  | [] => false
  | c :: t => target.isPrefixOf (c :: t) || (!(c == '"') && idFollows target t)

/-- Scan within an `href="..."` attribute for `confirm=<token>` followed by
`&id=<fileId>` (the regex at src/bot.py line 191), without crossing the
closing quote. -/
def confirmScan (fileId : List Char) : List Char → Option (List Char)
  | [] => none
  | c :: t =>
    if ("confirm=".data).isPrefixOf (c :: t) then
      (let tok := ((c :: t).drop 8).takeWhile tokenChar
       if !tok.isEmpty &&
          idFollows ("&id=".data ++ fileId) (((c :: t).drop 8).drop tok.length) then
         some tok
       else if c == '"' then none else confirmScan fileId t)
    else if c == '"' then none else confirmScan fileId t

/-- Scan the body for an `href="` occurrence whose attribute value carries the
confirm token (re.search of the pattern at src/bot.py line 191). -/
def hrefScan (fileId : List Char) : List Char → Option (List Char)
  | [] => none
  | c :: t =>
    match (if ("href=\"".data).isPrefixOf (c :: t) then
             confirmScan fileId ((c :: t).drop 6)
           else none) with
    | some tok => some tok
    | none => hrefScan fileId t

/-- The body search for the confirm token (src/bot.py lines 191-193). -/
def findBodyToken (fileId : String) (body : String) : Option String :=
  (hrefScan fileId.data body.data).map (fun l => ⟨l⟩)

/-- The cookie fallback (src/bot.py lines 195-199): first cookie whose name
starts with "download_warning". -/
def findCookieToken : List (String × String) → Option String
  | [] => none
  | (k, v) :: t => if strStarts "download_warning" k then some v else findCookieToken t

/-- The token selection of src/bot.py lines 184-199: `token = None`, take the
body search result if it matched, otherwise fall back to the cookie scan. -/
def drive_token (fileId : String) (resp : DriveResp) : Option String :=
  match findBodyToken fileId resp.body with
  | some t => some t
  | none => findCookieToken resp.cookies

/-- `drive_download_with_confirm` (src/bot.py lines 165-213).  The first
response is streamed directly when it is an attachment with a non-HTML/text
content type; otherwise the confirm token is searched in the body, then in the
cookies; with a token the second response (content type `ctype2`) is streamed
unless it is still HTML/text. -/
def drive_download_with_confirm (fileId : String) (resp : DriveResp)
    (ctype2 : String) : Except FetchErr DriveOutcome :=
  if strContains (pyLower resp.contentDisposition) "attachment" &&
     !(isHtmlLikeCtype resp.contentType) then
    Except.ok DriveOutcome.direct
  else
    match drive_token fileId resp with
    | none => Except.error FetchErr.tokenMissing
    | some t =>
      if isHtmlLikeCtype ctype2 then Except.error FetchErr.stillHtml
      else Except.ok (DriveOutcome.confirmed t)

/-- Counterexample to C2 as stated: the Zoom fetch accepts a response whose
declared content type is "text/html" as long as it is large enough — the
content-type rejection is not applied uniformly after all three strategies. -/
theorem acquisition_guard_C2_counterexample :
    isHtmlLikeCtype "text/html" = true ∧
    zoom_final_guard "text/html" 200 10000 = Except.ok () :=
  ⟨by decide, rfl⟩

/-- Claim C2 (amended): the minimum-size rejection is applied after all three
fetch strategies, and the HTML/text content-type rejection is applied after
the generic fetch and after both Google Drive responses; the Zoom fetch,
however, only rejects a non-200 status or an undersized transfer and never
examines the content type. -/
theorem acquisition_guard_C2_amended (ct : String) (n : ℕ) (fid : String)
    (resp : DriveResp) (ct2 : String) (status total : ℕ) :
    (isHtmlLikeCtype ct = true →
      generic_fetch_guard ct n = Except.error FetchErr.wrongType) ∧
    (isHtmlLikeCtype ct = false → n < MIN_BYTES →
      generic_fetch_guard ct n = Except.error FetchErr.tooSmall) ∧
    (n < MIN_BYTES → ensure_min_size (some n) MIN_BYTES = Except.error FetchErr.tooSmall) ∧
    (isHtmlLikeCtype ct2 = true → ∀ t,
      drive_download_with_confirm fid resp ct2 ≠ Except.ok (DriveOutcome.confirmed t)) ∧
    (drive_download_with_confirm fid resp ct2 = Except.ok DriveOutcome.direct →
      isHtmlLikeCtype resp.contentType = false) ∧
    (status ≠ 200 → zoom_final_guard ct status total = Except.error FetchErr.badStatus) ∧
    (total < MIN_BYTES → zoom_final_guard ct 200 total = Except.error FetchErr.tooSmall) := by
  refine ⟨?_, ?_, ?_, ?_, ?_, ?_, ?_⟩
  · intro h
    unfold generic_fetch_guard
    rw [if_pos h]
  · intro h hn
    unfold generic_fetch_guard
    rw [if_neg (by rw [h]; simp), if_pos hn]
  · intro hn
    show (if n < MIN_BYTES then (Except.error FetchErr.tooSmall : Except FetchErr Unit)
          else Except.ok ()) = Except.error FetchErr.tooSmall
    rw [if_pos hn]
  · intro h t
    unfold drive_download_with_confirm
    split
    · simp
    · split
      all_goals simp_all
  · intro hok
    unfold drive_download_with_confirm at hok
    split at hok
    · rename_i hb
      simp only [Bool.and_eq_true, Bool.not_eq_true'] at hb
      exact hb.2
    · split at hok
      · simp at hok
      · split at hok
        · simp at hok
        · simp at hok
  · intro h
    unfold zoom_final_guard
    rw [if_pos h]
  · intro hn
    unfold zoom_final_guard
    rw [if_neg (by simp), if_pos hn]

/-- Witness for C2 (amended): the generic guard rejects HTML, the Zoom guard
rejects an undersized transfer. -/
theorem acquisition_guard_C2_witness :
    generic_fetch_guard "text/html" 20000 = Except.error FetchErr.wrongType ∧
    zoom_final_guard "audio/mp4" 200 5 = Except.error FetchErr.tooSmall :=
  ⟨(acquisition_guard_C2_amended "text/html" 20000 "F" ⟨"", "", "", []⟩ "x" 200 5).1
      (by decide),
   (acquisition_guard_C2_amended "audio/mp4" 20000 "F" ⟨"", "", "", []⟩ "x" 200 5).2.2.2.2.2.2
      (by decide)⟩

/-! ## Zoom host detection and passcode extraction (src/bot.py lines 96-109)

`ZOOM_HOST_RE = https?://([\w\-]+\.)?zoom\.us/rec/` with `re.IGNORECASE` and
`re.search`; the two `PASS_PATTERNS` regexes are embedded as scanning
functions over the character list (leftmost match, maximal-munch token
capture, as the regexes behave on the inputs that occur). -/

/-- Cyrillic letters (for Python's unicode `\w` on the patterns' alphabet). -/
def isCyrillic (c : Char) : Bool :=
  ('а' ≤ c && c ≤ 'я') || ('А' ≤ c && c ≤ 'Я') || c = 'ё' || c = 'Ё'

/-- The regex word class `\w` on the character sets that occur. -/
def wordChar (c : Char) : Bool := c.isAlphanum || c = '_' || isCyrillic c

/-- Case-insensitive prefix match of a (lowercase) pattern. -/
def matchCI (pat : List Char) (l : List Char) : Bool :=
  pat.isPrefixOf ((l.take pat.length).map lowerRu)

def zoomTail (l : List Char) : Bool := matchCI "zoom.us/rec/".data l

/-- After `https?://`: an optional single `[\w\-]+\.` label, then
`zoom.us/rec/`. -/
def zoomAfterScheme (l : List Char) : Bool :=
  zoomTail l ||
  (!(l.takeWhile (fun c => wordChar c || c = '-')).isEmpty &&
    (match l.drop (l.takeWhile (fun c => wordChar c || c = '-')).length with
     | '.' :: r => zoomTail r
     | _ => false))

def zoomSchemeAt (l : List Char) : Bool :=
  (matchCI "https://".data l && zoomAfterScheme (l.drop 8)) ||
  (matchCI "http://".data l && zoomAfterScheme (l.drop 7))

def zoomSearch : List Char → Bool
  | [] => false
  | c :: t => zoomSchemeAt (c :: t) || zoomSearch t

/-- `ZOOM_HOST_RE.search(link)` (src/bot.py lines 96, 219). -/
def zoomHostMatch (url : String) : Bool := zoomSearch url.data

/-- The regex capture class `[A-Za-z0-9_\-\.\$\^\@\!\&\*]+`. -/
def passChar (c : Char) : Bool :=
  c.isAlphanum || c = '_' || c = '-' || c = '.' || c = '$' || c = '^' ||
  c = '@' || c = '!' || c = '&' || c = '*'

/-- After a matched keyword: `\s*[:：]\s*` then the captured token. -/
def afterColonCapture (r : List Char) : Option (List Char) :=
  match r.dropWhile Char.isWhitespace with
  | [] => none
  | c :: r2 =>
    if c = ':' || c = '：' then
      if ((r2.dropWhile Char.isWhitespace).takeWhile passChar).isEmpty then none
      else some ((r2.dropWhile Char.isWhitespace).takeWhile passChar)
    else none

/-- The keyword alternation `(?:pwd|passcode|пароль|секретный\s*код)`,
case-insensitively; returns the remaining input after the keyword. -/
def keywordTail (l : List Char) : Option (List Char) :=
  if matchCI "pwd".data l then some (l.drop 3)
  else if matchCI "passcode".data l then some (l.drop 8)
  else if matchCI "пароль".data l then some (l.drop 6)
  else if matchCI "секретный".data l then
    (if matchCI "код".data ((l.drop 9).dropWhile Char.isWhitespace) then
       some (((l.drop 9).dropWhile Char.isWhitespace).drop 3)
     else none)
  else none

/-- Leftmost search for the first `PASS_PATTERNS` regex (src/bot.py line 98):
a word boundary (start of input or previous character not a word character),
the keyword, `\s*[:：]\s*`, then the token capture. -/
def scanPattern1 : Bool → List Char → Option (List Char)
  | _, [] => none
  | prevWord, c :: t =>
    match (if prevWord then none
           else match keywordTail (c :: t) with
                | some r => afterColonCapture r
                | none => none) with
    | some tok => some tok
    | none => scanPattern1 (wordChar c) t

/-- Leftmost search for the second `PASS_PATTERNS` regex (src/bot.py line 99):
`Секретный\s*код\W*(token)`, with the greedy `\W*` backtracking minimally so
that at least one token character is captured. -/
def scanPattern2 : List Char → Option (List Char)
  | [] => none
  | c :: t =>
    match (if matchCI "секретный".data (c :: t) then
             (if matchCI "код".data (((c :: t).drop 9).dropWhile Char.isWhitespace) then
                (match ((((c :: t).drop 9).dropWhile Char.isWhitespace).drop 3).drop
                    (((((c :: t).drop 9).dropWhile Char.isWhitespace).drop 3).takeWhile
                      (fun ch => !(wordChar ch))).length with
                 | d :: r =>
                   if passChar d then some (d :: r.takeWhile passChar)
                   else
                     (if (((((((c :: t).drop 9).dropWhile Char.isWhitespace).drop 3).takeWhile
                          (fun ch => !(wordChar ch))).reverse.takeWhile passChar).reverse).isEmpty
                      then none
                      else some ((((((((c :: t).drop 9).dropWhile Char.isWhitespace).drop 3).takeWhile
                          (fun ch => !(wordChar ch))).reverse.takeWhile passChar).reverse)))
                 | [] =>
                   (if (((((((c :: t).drop 9).dropWhile Char.isWhitespace).drop 3).takeWhile
                        (fun ch => !(wordChar ch))).reverse.takeWhile passChar).reverse).isEmpty
                    then none
                    else some ((((((((c :: t).drop 9).dropWhile Char.isWhitespace).drop 3).takeWhile
                        (fun ch => !(wordChar ch))).reverse.takeWhile passChar).reverse))))
              else none)
           else none) with
    | some tok => some tok
    | none => scanPattern2 t

/-- `extract_passcode` (src/bot.py lines 102-109): `None` for empty text, the
first pattern's leftmost match, else the second pattern's; the captured token
contains no whitespace, so the source's `.strip()` is the identity on it. -/
def extract_passcode (text : String) : Option String :=
  if text = "" then none
  else
    match scanPattern1 false text.data with
    | some tok => some ⟨tok⟩
    | none =>
      match scanPattern2 text.data with
      | some tok => some ⟨tok⟩
      | none => none

/-! ## Percent-encoding (`urllib.parse.quote`, used at src/bot.py line 121)

`quote(p)` with the default `safe='/'` keeps `A-Za-z0-9_.-~/` and encodes each
other byte as `%HH` (uppercase hex).  The passcode character class is pure
ASCII, where UTF-8 bytes coincide with code points, so the encoding is
modelled per character.  `unquoteList` models `urllib.parse.unquote` on ASCII
output and certifies that the encoding is applied exactly once. -/

def hexDigit (n : ℕ) : Char := "0123456789ABCDEF".data.getD n '0'

def hexVal (c : Char) : Option ℕ :=
  if '0' ≤ c && c ≤ '9' then some (c.toNat - '0'.toNat)
  else if 'A' ≤ c && c ≤ 'F' then some (c.toNat - 'A'.toNat + 10)
  else if 'a' ≤ c && c ≤ 'f' then some (c.toNat - 'a'.toNat + 10)
  else none

/-- The characters `quote` leaves unencoded (unreserved plus `safe='/'`). -/
def quoteSafe (c : Char) : Bool :=
  c.isAlphanum || c = '_' || c = '.' || c = '-' || c = '~' || c = '/'

def quoteChar (c : Char) : List Char :=
  if quoteSafe c then [c]
  else ['%', hexDigit (c.toNat / 16 % 16), hexDigit (c.toNat % 16)]

def quoteList : List Char → List Char
  | [] => []
  | c :: t => quoteChar c ++ quoteList t

/-- `urllib.parse.quote(s)` (ASCII input). -/
def pyQuote (s : String) : String := ⟨quoteList s.data⟩

/-- `%HH` pair decoding. -/
def decodePct (h1 h2 : Char) : Option Char :=
  match hexVal h1, hexVal h2 with
  | some a, some b => some (Char.ofNat (16 * a + b))
  | _, _ => none

/-- `urllib.parse.unquote` on ASCII data: decode each valid `%HH` triple,
keep everything else (including a `%` not followed by two hex digits). -/
def unquoteList : List Char → List Char
  | [] => []
  | c :: t =>
    if _h : c = '%' ∧ 2 ≤ t.length ∧ (decodePct (t.getD 0 ' ') (t.getD 1 ' ')).isSome then
      ((decodePct (t.getD 0 ' ') (t.getD 1 ' ')).getD ' ') :: unquoteList (t.drop 2)
    else c :: unquoteList t
termination_by l => l.length
decreasing_by
  · simp only [List.length_cons]
    have : (t.drop 2).length ≤ t.length := by
      rw [List.length_drop]
      omega
    omega
  · simp

/-! ## Zoom URL building and link dispatch (src/bot.py lines 111-251) -/

/-- The URL built by `download_zoom_recording` (src/bot.py lines 118-121):
when a passcode is present and the URL does not already carry `pwd=`, append
`pwd=<quote(passcode)>` with `?` or `&` as separator; otherwise the URL is
used unchanged. -/
def download_zoom_url (share_url : String) (passcode : Option String) : String :=
  match passcode with
  | some p =>
    if !(p == "") && !(strContains share_url "pwd=") then
      share_url ++ (if strContains share_url "?" then "&" else "?") ++ "pwd=" ++ pyQuote p
    else share_url
  | none => share_url

/-- Scan for `[?&]id=([^&]+)` (first regex of `DRIVE_FILE_ID_RE_LIST`,
src/bot.py line 151). -/
def idParamScan : List Char → Option (List Char)
  | [] => none
  | c :: t =>
    match (if (c = '?' || c = '&') && matchCI "id=".data t then
             (if ((t.drop 3).takeWhile (fun ch => !(ch == '&'))).isEmpty then none
              else some ((t.drop 3).takeWhile (fun ch => !(ch == '&'))))
           else none) with
    | some tok => some tok
    | none => idParamScan t

/-- Scan for the last `/file/d/([^/]+)` occurrence (the greedy `.*` of the
third regex, src/bot.py line 153). -/
def fileDScan : List Char → Option (List Char)
  | [] => none
  | c :: t =>
    match fileDScan t with
    | some tok => some tok
    | none =>
      if matchCI "/file/d/".data (c :: t) then
        (if (((c :: t).drop 8).takeWhile (fun ch => !(ch == '/'))).isEmpty then none
         else some (((c :: t).drop 8).takeWhile (fun ch => !(ch == '/'))))
      else none

/-- The third regex `drive\.google\.com/.*/file/d/([^/]+)` (src/bot.py line
153): a literal `drive.google.com/` occurrence followed later by `/file/d/`. -/
def driveHostScan : List Char → Option (List Char)
  | [] => none
  | c :: t =>
    if matchCI "drive.google.com/".data (c :: t) then fileDScan ((c :: t).drop 17)
    else driveHostScan t

/-- `drive_extract_id` (src/bot.py lines 150-163).  Regexes 2, 4 and 5 of
`DRIVE_FILE_ID_RE_LIST` each require a `[?&]id=` occurrence and are subsumed
by regex 1, which is tried first; so the function is regex 1, then regex 3. -/
def drive_extract_id (url : String) : Option String :=
  match idParamScan url.data with
  | some tok => some ⟨tok⟩
  | none => (driveHostScan url.data).map (fun l => ⟨l⟩)

inductive FetchPlan where
  | zoom : String → String → FetchPlan
  | drive : String → String → FetchPlan
  | generic : String → FetchPlan
deriving DecidableEq

/-- The dispatch of `download_from_link` (src/bot.py lines 215-251): Zoom
links require a passcode before any request is issued (`if not
maybe_passcode: raise`), Drive links require an extractable file id, anything
else is fetched directly.  The returned plan is the fetch the function goes
on to perform; an error is raised before any network call. -/
def download_from_link (link : String) (maybe_passcode : Option String) :
    Except FetchErr FetchPlan :=
  let l := normalize_link link
  if zoomHostMatch l then
    match maybe_passcode with
    | none => Except.error FetchErr.authRequired
    | some p =>
      if p == "" then Except.error FetchErr.authRequired
      else Except.ok (FetchPlan.zoom l p)
  else if strContains l "drive.google.com" || strContains l "drive.usercontent.google.com" then
    match drive_extract_id l with
    | none => Except.error FetchErr.driveIdMissing
    | some fid => Except.ok (FetchPlan.drive l fid)
  else Except.ok (FetchPlan.generic l)

/-- Claim C5: For every conferencing-recording (Zoom) URL with no access
secret available from the URL or the accompanying free text, the pipeline
fails with an AuthRequired-kind error before any network request is issued
against the provider, and the download is never attempted.  (In the embedding
the dispatcher returns the error instead of producing any fetch plan — the
plan is the prerequisite of every network call, so no request is issued.) -/
theorem zoom_auth_C5 (link text : String)
    (hz : zoomHostMatch (normalize_link link) = true)
    (hp : extract_passcode text = none) :
    download_from_link link (extract_passcode text) = Except.error FetchErr.authRequired ∧
    ∀ plan, download_from_link link (extract_passcode text) ≠ Except.ok plan := by
  have h1 : download_from_link link (extract_passcode text) =
      Except.error FetchErr.authRequired := by
    simp only [download_from_link]
    rw [hp, if_pos hz]
  refine ⟨h1, ?_⟩
  intro plan hcontra
  rw [h1] at hcontra
  exact Except.noConfusion hcontra

/-- Witness for C5: a Zoom recording link in a message with no passcode. -/
theorem zoom_auth_C5_witness :
    zoomHostMatch (normalize_link "https://zoom.us/rec/share/abc") = true ∧
    extract_passcode "" = none ∧
    download_from_link "https://zoom.us/rec/share/abc" (extract_passcode "") =
      Except.error FetchErr.authRequired :=
  ⟨by decide, rfl,
    (zoom_auth_C5 "https://zoom.us/rec/share/abc" "" (by decide) rfl).1⟩

/-! ## Lemmas: percent-encoding roundtrip -/

theorem unquoteList_cons_safe {c : Char} (t : List Char) (hne : ¬(c = '%')) :
    unquoteList (c :: t) = c :: unquoteList t := by
  simp only [unquoteList]
  rw [dif_neg (fun hcond => hne hcond.1)]

theorem unquoteList_encoded (c h1 h2 : Char) (rest : List Char)
    (hd : decodePct h1 h2 = some c) :
    unquoteList ('%' :: h1 :: h2 :: rest) = c :: unquoteList rest := by
  simp only [unquoteList]
  rw [dif_pos (by
    refine ⟨by trivial, by simp, ?_⟩
    rw [show (h1 :: h2 :: rest).getD 0 ' ' = h1 from rfl,
      show (h1 :: h2 :: rest).getD 1 ' ' = h2 from rfl, hd]
    rfl)]
  show (decodePct h1 h2).getD ' ' :: unquoteList rest = c :: unquoteList rest
  rw [hd]
  rfl

theorem unquote_quoteChar (c : Char) (hc : passChar c = true) (rest : List Char) :
    unquoteList (quoteChar c ++ rest) = c :: unquoteList rest := by
  by_cases hs : quoteSafe c = true
  · have hne : ¬(c = '%') := by
      intro he
      rw [he] at hs
      exact absurd hs (by decide)
    rw [quoteChar, if_pos hs]
    show unquoteList (c :: rest) = c :: unquoteList rest
    exact unquoteList_cons_safe rest hne
  · have hcases : c = '$' ∨ c = '^' ∨ c = '@' ∨ c = '!' ∨ c = '&' ∨ c = '*' := by
      have hs2 : ¬(c.isAlphanum = true ∨ c = '_' ∨ c = '.' ∨ c = '-' ∨ c = '~' ∨ c = '/') := by
        intro hor
        apply hs
        unfold quoteSafe
        simp only [Bool.or_eq_true, decide_eq_true_eq]
        tauto
      push_neg at hs2
      unfold passChar at hc
      simp only [Bool.or_eq_true, decide_eq_true_eq] at hc
      tauto
    rcases hcases with h | h | h | h | h | h <;> subst h
    · rw [show quoteChar '$' = ['%', '2', '4'] from by decide]
      exact unquoteList_encoded '$' '2' '4' rest (by decide)
    · rw [show quoteChar '^' = ['%', '5', 'E'] from by decide]
      exact unquoteList_encoded '^' '5' 'E' rest (by decide)
    · rw [show quoteChar '@' = ['%', '4', '0'] from by decide]
      exact unquoteList_encoded '@' '4' '0' rest (by decide)
    · rw [show quoteChar '!' = ['%', '2', '1'] from by decide]
      exact unquoteList_encoded '!' '2' '1' rest (by decide)
    · rw [show quoteChar '&' = ['%', '2', '6'] from by decide]
      exact unquoteList_encoded '&' '2' '6' rest (by decide)
    · rw [show quoteChar '*' = ['%', '2', 'A'] from by decide]
      exact unquoteList_encoded '*' '2' 'A' rest (by decide)

/-- Decoding a passcode's encoding recovers the passcode: the secret is
percent-encoded exactly once. -/
theorem unquote_quoteList (l : List Char) (h : ∀ c ∈ l, passChar c = true) :
    unquoteList (quoteList l) = l := by
  induction l with
  | nil => simp [quoteList, unquoteList]
  | cons c t ih =>
    rw [quoteList, unquote_quoteChar c (h c (List.mem_cons_self c t)) (quoteList t),
      ih (fun x hx => h x (List.mem_cons_of_mem c hx))]

/-! ## Lemmas: every extracted passcode is in the capture class -/

theorem afterColonCapture_class {r tok : List Char}
    (h : afterColonCapture r = some tok) :
    tok ≠ [] ∧ ∀ c ∈ tok, passChar c = true := by
  unfold afterColonCapture at h
  split at h
  · exact absurd h (by simp)
  · split at h
    · split at h
      · exact absurd h (by simp)
      · rename_i hne
        injection h with h'
        subst h'
        refine ⟨?_, fun x hx => List.mem_takeWhile_imp hx⟩
        intro hnil
        rw [hnil] at hne
        exact hne rfl
    · exact absurd h (by simp)

theorem scanPattern1_class :
    ∀ (l : List Char) (b : Bool) (tok : List Char),
      scanPattern1 b l = some tok → tok ≠ [] ∧ ∀ c ∈ tok, passChar c = true := by
  intro l
  induction l with
  | nil => intro b tok h; exact absurd h (by simp [scanPattern1])
  | cons c t ih =>
    intro b tok h
    rw [scanPattern1] at h
    split at h
    · rename_i tok0 hinner
      injection h with h'
      subst h'
      by_cases hb : b = true
      · rw [if_pos hb] at hinner
        exact absurd hinner (by simp)
      · rw [if_neg hb] at hinner
        split at hinner
        · exact afterColonCapture_class hinner
        · exact absurd hinner (by simp)
    · exact ih (wordChar c) tok h

theorem scanPattern2_class :
    ∀ (l : List Char) (tok : List Char),
      scanPattern2 l = some tok → tok ≠ [] ∧ ∀ c ∈ tok, passChar c = true := by
  intro l
  induction l with
  | nil => intro tok h; exact absurd h (by simp [scanPattern2])
  | cons c t ih =>
    intro tok h
    rw [scanPattern2] at h
    split at h
    · rename_i tok0 hinner
      injection h with h'
      subst h'
      split at hinner
      · split at hinner
        · split at hinner
          · rename_i d r hrest
            split at hinner
            · rename_i hd
              injection hinner with h''
              subst h''
              refine ⟨by simp, ?_⟩
              intro x hx
              rcases List.mem_cons.mp hx with hx | hx
              · subst hx; exact hd
              · exact List.mem_takeWhile_imp hx
            · split at hinner
              · exact absurd hinner (by simp)
              · rename_i hne
                injection hinner with h''
                subst h''
                refine ⟨?_, ?_⟩
                · intro hnil
                  rw [hnil] at hne
                  exact hne rfl
                · intro x hx
                  rw [List.mem_reverse] at hx
                  exact List.mem_takeWhile_imp hx
          · split at hinner
            · exact absurd hinner (by simp)
            · rename_i hne
              injection hinner with h''
              subst h''
              refine ⟨?_, ?_⟩
              · intro hnil
                rw [hnil] at hne
                exact hne rfl
              · intro x hx
                rw [List.mem_reverse] at hx
                exact List.mem_takeWhile_imp hx
        · exact absurd hinner (by simp)
      · exact absurd hinner (by simp)
    · exact ih tok h

theorem extract_passcode_class (text tok : String)
    (h : extract_passcode text = some tok) :
    tok ≠ "" ∧ ∀ c ∈ tok.data, passChar c = true := by
  unfold extract_passcode at h
  split at h
  · exact absurd h (by simp)
  · split at h
    · rename_i tk hsc
      injection h with h'
      subst h'
      obtain ⟨h1, h2⟩ := scanPattern1_class text.data false tk hsc
      exact ⟨fun he => h1 ((string_eq_empty_iff _).mp he), h2⟩
    · split at h
      · rename_i tk hsc
        injection h with h'
        subst h'
        obtain ⟨h1, h2⟩ := scanPattern2_class text.data tk hsc
        exact ⟨fun he => h1 ((string_eq_empty_iff _).mp he), h2⟩
      · exact absurd h (by simp)

/-- Claim C8: For every access secret folded into a conferencing-recording
URL's query string, the secret is percent-encoded exactly once — neither left
unencoded nor double-encoded — regardless of whether the secret came embedded
in the URL itself or from the accompanying free text.  (The only folding the
code performs appends `pwd=quote(p)`, and decoding that value once recovers
`p` exactly; a URL already carrying `pwd=` is used unchanged, so no secret is
ever folded twice.  Every passcode extracted from free text lies in the
capture class, which contains no `%`, so `quote` cannot double-encode it.) -/
theorem passcode_encode_C8 (url p : String) (hp : p ≠ "")
    (hclass : ∀ c ∈ p.data, passChar c = true) :
    (strContains url "pwd=" = false →
      download_zoom_url url (some p) =
        url ++ (if strContains url "?" then "&" else "?") ++ "pwd=" ++ pyQuote p ∧
      unquoteList (pyQuote p).data = p.data) ∧
    (strContains url "pwd=" = true → download_zoom_url url (some p) = url) ∧
    (∀ text tok, extract_passcode text = some tok →
      tok ≠ "" ∧ ∀ c ∈ tok.data, passChar c = true) := by
  have hpb : (p == "") = false := beq_eq_false_iff_ne.mpr hp
  refine ⟨?_, ?_, fun text tok h => extract_passcode_class text tok h⟩
  · intro hurl
    constructor
    · simp only [download_zoom_url]
      rw [hpb, hurl]
      simp
    · show unquoteList (quoteList p.data) = p.data
      exact unquote_quoteList p.data hclass
  · intro hurl
    simp only [download_zoom_url]
    rw [hurl]
    simp

/-- Witness for C8 with the passcode "AB$1" (containing a character that must
be encoded) and a URL without `pwd=`. -/
theorem passcode_encode_C8_witness :
    download_zoom_url "https://zoom.us/rec/share/xyz" (some "AB$1") =
      "https://zoom.us/rec/share/xyz" ++ "?" ++ "pwd=" ++ pyQuote "AB$1" ∧
    unquoteList (pyQuote "AB$1").data = "AB$1".data := by
  have h := (passcode_encode_C8 "https://zoom.us/rec/share/xyz" "AB$1"
    (by decide) (by decide)).1 (by decide)
  refine ⟨?_, h.2⟩
  rw [h.1, show strContains "https://zoom.us/rec/share/xyz" "?" = false from by decide]
  rfl

/-! ## Lemmas: the Drive confirmation flow (C4) -/

theorem drive_token_body {fid : String} {resp : DriveResp} {t : String}
    (h : findBodyToken fid resp.body = some t) : drive_token fid resp = some t := by
  unfold drive_token
  rw [h]

theorem drive_token_cookie {fid : String} {resp : DriveResp}
    (h : findBodyToken fid resp.body = none) :
    drive_token fid resp = findCookieToken resp.cookies := by
  unfold drive_token
  rw [h]

theorem drive_result_of_token_none {fid : String} {resp : DriveResp} {ct2 : String}
    (hB : (strContains (pyLower resp.contentDisposition) "attachment" &&
           !(isHtmlLikeCtype resp.contentType)) = false)
    (h : drive_token fid resp = none) :
    drive_download_with_confirm fid resp ct2 = Except.error FetchErr.tokenMissing := by
  unfold drive_download_with_confirm
  rw [if_neg (by rw [hB]; simp), h]

theorem drive_result_of_token_some {fid : String} {resp : DriveResp} {ct2 : String}
    {t : String}
    (hB : (strContains (pyLower resp.contentDisposition) "attachment" &&
           !(isHtmlLikeCtype resp.contentType)) = false)
    (h : drive_token fid resp = some t) :
    drive_download_with_confirm fid resp ct2 =
      (if isHtmlLikeCtype ct2 then Except.error FetchErr.stillHtml
       else Except.ok (DriveOutcome.confirmed t)) := by
  unfold drive_download_with_confirm
  rw [if_neg (by rw [hB]; simp), h]

/-- Claim C4: For a bulk-storage (Google Drive) fetch whose first response is
an HTML interstitial rather than an attachment: the fetcher searches the
response body for an embedded confirmation token, falls back to scanning
response cookies for a name with the download_warning prefix, raises a
ConfirmationTokenMissing-kind error if and only if neither source yields a
token, and on the token-bearing second request raises a fetch error if that
second response is still HTML/text instead of streaming it to disk. -/
theorem drive_confirm_C4 (fid : String) (resp : DriveResp) (ct2 : String)
    (hB : (strContains (pyLower resp.contentDisposition) "attachment" &&
           !(isHtmlLikeCtype resp.contentType)) = false) :
    (drive_download_with_confirm fid resp ct2 = Except.error FetchErr.tokenMissing ↔
      findBodyToken fid resp.body = none ∧ findCookieToken resp.cookies = none) ∧
    (∀ t, findBodyToken fid resp.body = some t →
      (isHtmlLikeCtype ct2 = true →
        drive_download_with_confirm fid resp ct2 = Except.error FetchErr.stillHtml) ∧
      (isHtmlLikeCtype ct2 = false →
        drive_download_with_confirm fid resp ct2 =
          Except.ok (DriveOutcome.confirmed t))) ∧
    (findBodyToken fid resp.body = none →
      ∀ t, findCookieToken resp.cookies = some t →
      (isHtmlLikeCtype ct2 = true →
        drive_download_with_confirm fid resp ct2 = Except.error FetchErr.stillHtml) ∧
      (isHtmlLikeCtype ct2 = false →
        drive_download_with_confirm fid resp ct2 =
          Except.ok (DriveOutcome.confirmed t))) := by
  have hsome : ∀ t, drive_token fid resp = some t →
      (isHtmlLikeCtype ct2 = true →
        drive_download_with_confirm fid resp ct2 = Except.error FetchErr.stillHtml) ∧
      (isHtmlLikeCtype ct2 = false →
        drive_download_with_confirm fid resp ct2 =
          Except.ok (DriveOutcome.confirmed t)) := by
    intro t ht
    rw [drive_result_of_token_some hB ht]
    constructor
    · intro hh; rw [if_pos hh]
    · intro hh; rw [if_neg (by rw [hh]; simp)]
  refine ⟨?_, ?_, ?_⟩
  · constructor
    · intro hres
      by_cases hbody : findBodyToken fid resp.body = none
      · refine ⟨hbody, ?_⟩
        by_cases hcook : findCookieToken resp.cookies = none
        · exact hcook
        · exfalso
          obtain ⟨t, ht⟩ := Option.ne_none_iff_exists'.mp hcook
          have hrw := @drive_result_of_token_some fid resp ct2 t hB
            (by rw [drive_token_cookie hbody]; exact ht)
          rw [hrw] at hres
          by_cases hh : isHtmlLikeCtype ct2 = true
          · rw [if_pos hh] at hres; simp at hres
          · rw [if_neg hh] at hres; simp at hres
      · exfalso
        obtain ⟨t, ht⟩ := Option.ne_none_iff_exists'.mp hbody
        have hrw := @drive_result_of_token_some fid resp ct2 t hB (drive_token_body ht)
        rw [hrw] at hres
        by_cases hh : isHtmlLikeCtype ct2 = true
        · rw [if_pos hh] at hres; simp at hres
        · rw [if_neg hh] at hres; simp at hres
    · rintro ⟨h1, h2⟩
      exact drive_result_of_token_none hB (by rw [drive_token_cookie h1]; exact h2)
  · intro t ht
    exact hsome t (drive_token_body ht)
  · intro hbody t ht
    exact hsome t (by rw [drive_token_cookie hbody]; exact ht)

/-- Witness for C4: an HTML interstitial whose body embeds a confirm token,
followed by a non-HTML second response. -/
theorem drive_confirm_C4_witness :
    (strContains (pyLower "") "attachment" && !(isHtmlLikeCtype "text/html")) = false ∧
    findBodyToken "FILE123"
      "<a href=\"/uc?export=download&confirm=t0k3n&id=FILE123\">" = some "t0k3n" ∧
    drive_download_with_confirm "FILE123"
      ⟨"", "text/html", "<a href=\"/uc?export=download&confirm=t0k3n&id=FILE123\">", []⟩
      "application/octet-stream" = Except.ok (DriveOutcome.confirmed "t0k3n") := by
  refine ⟨by decide, by decide, ?_⟩
  exact ((drive_confirm_C4 "FILE123"
      ⟨"", "text/html", "<a href=\"/uc?export=download&confirm=t0k3n&id=FILE123\">", []⟩
      "application/octet-stream" (by decide)).2.1 "t0k3n" (by decide)).2 (by decide)

end Bot
